import Mathlib

/-!
Shallow embedding of `src/src/utils/screengrabber.cpp` (the flameshot
`ScreenGrabber` class) together with the Qt primitives it relies on
(`QRect`, `QRectF`, `QPixmap`).  Machine reals (`double`, `qreal`) are
modelled as exact rationals; Qt integer rectangles keep their
`x1/x2 = x .. x + w - 1` edge convention through `QRect::united`.
-/

/-- Qt integer rectangle, stored as origin plus size.  Qt internally stores
the corners `x1 = x, x2 = x + w - 1`; the operations below reproduce that
convention exactly. -/
structure QRect where
  x : Int
  y : Int
  w : Int
  h : Int
deriving DecidableEq

/-- Model of `QRect::isNull`: both width and height are zero. -/
def QRect.isNull (r : QRect) : Bool := r.w == 0 && r.h == 0

/-- Model of `QRect::united` (`operator|`): a null rectangle is the identity, otherwise
each rectangle is normalised to its corner span `x1 .. x2` (with
`x2 = x + w - 1` when `w ≥ 1`) and the bounding box of the two spans is
returned. -/
def QRect.united (a b : QRect) : QRect :=
  if a.isNull then b
  else if b.isNull then a
  else
    let l1 := if a.w ≥ 1 then a.x else a.x + a.w
    let r1 := if a.w ≥ 1 then a.x + a.w - 1 else a.x - 1
    let l2 := if b.w ≥ 1 then b.x else b.x + b.w
    let r2 := if b.w ≥ 1 then b.x + b.w - 1 else b.x - 1
    let t1 := if a.h ≥ 1 then a.y else a.y + a.h
    let b1 := if a.h ≥ 1 then a.y + a.h - 1 else a.y - 1
    let t2 := if b.h ≥ 1 then b.y else b.y + b.h
    let b2 := if b.h ≥ 1 then b.y + b.h - 1 else b.y - 1
    ⟨min l1 l2, min t1 t2, max r1 r2 - min l1 l2 + 1, max b1 b2 - min t1 t2 + 1⟩

/-- Model of `QRect::size`, as a width/height pair. -/
def QRect.size (r : QRect) : Int × Int := (r.w, r.h)

/-- Qt floating-point rectangle (`QRectF`), with `qreal` modelled as `ℚ`. -/
structure QRectF where
  x : ℚ
  y : ℚ
  w : ℚ
  h : ℚ
deriving DecidableEq

/-- Model of `QRectF::isNull`: both width and height are zero. -/
def QRectF.isNull (r : QRectF) : Bool := r.w == 0 && r.h == 0

/-- Model of `QRectF::united` (`operator|`): a null rectangle is the identity,
otherwise each rectangle is normalised to `[x, x + w]` (swapping the edges
when `w < 0`) and the bounding box is returned. -/
def QRectF.united (a b : QRectF) : QRectF :=
  if a.isNull then b
  else if b.isNull then a
  else
    let l1 := if a.w < 0 then a.x + a.w else a.x
    let r1 := if a.w < 0 then a.x else a.x + a.w
    let l2 := if b.w < 0 then b.x + b.w else b.x
    let r2 := if b.w < 0 then b.x else b.x + b.w
    let t1 := if a.h < 0 then a.y + a.h else a.y
    let b1 := if a.h < 0 then a.y else a.y + a.h
    let t2 := if b.h < 0 then b.y + b.h else b.y
    let b2 := if b.h < 0 then b.y else b.y + b.h
    ⟨min l1 l2, min t1 t2, max r1 r2 - min l1 l2, max b1 b2 - min t1 t2⟩

/-- Model of `QRectF::toAlignedRect`: the smallest integer rectangle containing the
rectangle — floor of the near edges, ceiling of the far edges. -/
def QRectF.toAlignedRect (r : QRectF) : QRect :=
  ⟨⌊r.x⌋, ⌊r.y⌋, ⌈r.x + r.w⌉ - ⌊r.x⌋, ⌈r.y + r.h⌉ - ⌊r.y⌋⟩

/-- Model of `std::llround`: rounding half away from zero. -/
def llround (q : ℚ) : Int := if 0 ≤ q then ⌊q + 1/2⌋ else ⌈q - 1/2⌉

/-- A captured `QPixmap`: a pixel size and a device-pixel-ratio tag. -/
structure Pixmap where
  width : Int
  height : Int
  dpr : ℚ
deriving DecidableEq

/-- Model of `QPixmap::size`. -/
def Pixmap.size (p : Pixmap) : Int × Int := (p.width, p.height)

/-- Model of `QPixmap::isNull`: a null pixmap has zero width and zero height. -/
def Pixmap.isNull (p : Pixmap) : Bool := p.width == 0 && p.height == 0

/-- A default-constructed (null) `QPixmap`. -/
def nullPixmap : Pixmap := ⟨0, 0, 1⟩

/-- One `QScreen` as consumed by the generic geometry path: its reported
`geometry()` rectangle and its `devicePixelRatio()`. -/
structure Screen where
  geometry : QRect
  dpr : ℚ
deriving DecidableEq

/-- One parsed element of the `hyprctl monitors -j` JSON array, after the
field extraction in `hyprlandDesktopGeometries`: `width`, `height`, `x`, `y`
via `toDouble()` (defaulting to 0 when absent) and `scale` via
`toDouble(1.0)`. -/
structure Monitor where
  width : ℚ
  height : ℚ
  x : ℚ
  y : ℚ
  scale : ℚ
deriving DecidableEq

/-- The keep-condition of the monitor loop: the code skips an entry when
`width <= 0 || height <= 0 || scale <= 0.0`. -/
def monitorValid (m : Monitor) : Prop := 0 < m.width ∧ 0 < m.height ∧ 0 < m.scale

instance (m : Monitor) : Decidable (monitorValid m) := by
  unfold monitorValid; infer_instance

/-- Model of `QRect physicalRect(toInt(x), toInt(y), toInt(width), toInt(height))`
with `toInt = llround`. -/
def monitorPhysicalRect (m : Monitor) : QRect :=
  ⟨llround m.x, llround m.y, llround m.width, llround m.height⟩

/-- Model of `QRect logicalRect(toInt(x / scale), toInt(y / scale),
toInt(width / scale), toInt(height / scale))`. -/
def monitorLogicalRect (m : Monitor) : QRect :=
  ⟨llround (m.x / m.scale), llround (m.y / m.scale),
   llround (m.width / m.scale), llround (m.height / m.scale)⟩

/-- Environment consumed by `ScreenGrabber::hyprlandDesktopGeometries`:
whether the session is Wayland with window manager HYPRLAND, whether the
`hyprctl` subprocess finished within the 1000 ms bound, and the parse result
of its stdout (`none` models a JSON parse error or a non-array document; a
list element is `none` when the array entry is not a JSON object). -/
structure HyprctlEnv where
  isWaylandHyprland : Bool
  processFinished : Bool
  parsedMonitors : Option (List (Option Monitor))
deriving DecidableEq

/-- One iteration of the monitor loop: non-object entries and invalid
entries leave the accumulator (physical union, logical union, gotMonitor)
unchanged; valid entries are united into both unions and set the flag. -/
def hyprStep (acc : QRect × QRect × Bool) (v : Option Monitor) : QRect × QRect × Bool :=
  match v with
  | none => acc
  | some m =>
      if monitorValid m then
        (acc.1.united (monitorPhysicalRect m),
         acc.2.1.united (monitorLogicalRect m), true)
      else acc

/-- The whole monitor loop, starting from default-constructed unions and
`gotMonitor = false`. -/
def hyprAccum (arr : List (Option Monitor)) : QRect × QRect × Bool :=
  arr.foldl hyprStep (⟨0, 0, 0, 0⟩, ⟨0, 0, 0, 0⟩, false)

/-- The monitors that the loop actually accumulates: JSON-object entries
passing the validity test. -/
def validMonitors (arr : List (Option Monitor)) : List Monitor :=
  arr.filterMap fun v =>
    match v with
    | none => none
    | some m => if monitorValid m then some m else none

/-- Model of `ScreenGrabber::hyprlandDesktopGeometries`: returns `false` (leaving the
by-reference `physical`/`logical` arguments untouched) unless the session is
Wayland+HYPRLAND, `hyprctl` finished in time, its output parsed as a JSON
array, and at least one valid monitor was accumulated; in that case the two
unions are written and `true` is returned. -/
def hyprlandDesktopGeometries (env : HyprctlEnv) (physical logical : QRect) :
    Bool × QRect × QRect :=
  if env.isWaylandHyprland = false then (false, physical, logical)
  else if env.processFinished = false then (false, physical, logical)
  else
    match env.parsedMonitors with
    | none => (false, physical, logical)
    | some arr =>
        let acc := hyprAccum arr
        if acc.2.2 then (true, acc.1, acc.2.1) else (false, physical, logical)

/-- Everything `desktopGeometry` / `logicalDesktopGeometry` reads: the
Hyprland introspection environment and the `QGuiApplication::screens()`
list. -/
structure GeometryEnv where
  hypr : HyprctlEnv
  screens : List Screen
deriving DecidableEq

/-- Generic physical path of `ScreenGrabber::desktopGeometry`: fold
`geometry = geometry.united(screen->geometry())` over all screens, starting
from a default-constructed `QRect`. -/
def genericDesktopGeometry (screens : List Screen) : QRect :=
  screens.foldl (fun geometry s => geometry.united s.geometry) ⟨0, 0, 0, 0⟩

/-- The per-screen logical rectangle built in
`ScreenGrabber::logicalDesktopGeometry`: origin and size each divided by the
device-pixel-ratio of the screen. -/
def screenLogicalRectF (s : Screen) : QRectF :=
  ⟨(s.geometry.x : ℚ) / s.dpr, (s.geometry.y : ℚ) / s.dpr,
   (s.geometry.w : ℚ) / s.dpr, (s.geometry.h : ℚ) / s.dpr⟩

/-- Generic logical path of `ScreenGrabber::logicalDesktopGeometry`: union
the scaled per-screen rectangles as `QRectF` and align the result outward to
an integer rectangle. -/
def genericLogicalDesktopGeometry (screens : List Screen) : QRect :=
  (screens.foldl (fun geometry s => geometry.united (screenLogicalRectF s))
      (⟨0, 0, 0, 0⟩ : QRectF)).toAlignedRect

/-- Model of `ScreenGrabber::desktopGeometry`: the Hyprland introspection result when
it succeeds, else the generic union. -/
def desktopGeometry (env : GeometryEnv) : QRect :=
  let hypr := hyprlandDesktopGeometries env.hypr ⟨0, 0, 0, 0⟩ ⟨0, 0, 0, 0⟩
  if hypr.1 then hypr.2.1 else genericDesktopGeometry env.screens

/-- Model of `ScreenGrabber::logicalDesktopGeometry`: the Hyprland introspection
result when it succeeds, else the generic scaled union. -/
def logicalDesktopGeometry (env : GeometryEnv) : QRect :=
  let hypr := hyprlandDesktopGeometries env.hypr ⟨0, 0, 0, 0⟩ ⟨0, 0, 0, 0⟩
  if hypr.1 then hypr.2.2 else genericLogicalDesktopGeometry env.screens

/-- Model of `ScreenGrabber::adjustDevicePixelRatio` (renamed here): if the pixel size of the pixmap equals the physical geometry size, stamp it with the ambient
`qApp->devicePixelRatio()`; else if it does not equal the logical geometry size either, stamp it with `pixmap.height() / logicalGeo.height()`; else
leave it unchanged. -/
def adjustDevicePixelScale (env : GeometryEnv) (appDpr : ℚ) (pixmap : Pixmap) : Pixmap :=
  let physicalGeo := desktopGeometry env
  let logicalGeo := logicalDesktopGeometry env
  if pixmap.size = physicalGeo.size then { pixmap with dpr := appDpr }
  else if pixmap.size ≠ logicalGeo.size then
    { pixmap with dpr := (pixmap.height : ℚ) / (logicalGeo.h : ℚ) }
  else pixmap

/-- The window-manager classification consumed by
`ScreenGrabber::grabEntireDesktop` (`DesktopInfo::windowManager()`).
`UNCLASSIFIED` stands for the values caught by the `default:` branch of the
switch (no desktop environment detected). -/
inductive WindowManager
  | GNOME
  | KDE
  | COSMIC
  | QTILE
  | WLROOTS
  | HYPRLAND
  | OTHER
  | UNCLASSIFIED
deriving DecidableEq

/-- The two session-brokered capture backends the dispatcher can invoke. -/
inductive Backend
  | portal
  | grim
deriving DecidableEq

/-- The configuration flags the dispatcher reads (`ConfigHandler`). -/
structure Config where
  useGrimAdapter : Bool
  disabledGrimWarning : Bool
deriving DecidableEq

/-- The Wayland branch of `ScreenGrabber::grabEntireDesktop`: which backend
is delegated to, and the resulting `ok` flag.  `portalOk` / `grimOk` are the
`ok` values the respective backend would report when invoked (the flag
starts out `true` and is only written by the invoked backend or by the
`default:` branch). -/
def grabEntireDesktopWayland (wm : WindowManager) (cfg : Config)
    (portalOk grimOk : Bool) : Bool × Option Backend :=
  match wm with
  | .GNOME | .KDE | .COSMIC => (portalOk, some Backend.portal)
  | .QTILE | .WLROOTS | .HYPRLAND | .OTHER =>
      if cfg.useGrimAdapter = false then (portalOk, some Backend.portal)
      else (grimOk, some Backend.grim)
  | .UNCLASSIFIED => (false, none)

/-- The portal `Response` signal payload as used by the code: the `status`
argument, and the pixmap obtained by loading `results["uri"]` (`none` when
the file cannot be loaded, which leaves a null `QPixmap`). -/
structure PortalResponse where
  status : Nat
  loadedImage : Option Pixmap
deriving DecidableEq

/-- Environment of one `ScreenGrabber::freeDesktopPortal` call: whether
`org.freedesktop.portal.Desktop` is registered on the session bus, and the
correlated `Response` signal (`none` when the broker never responds — the
code installs no timeout, so `loop.exec()` then never returns). -/
structure PortalEnv where
  serviceRegistered : Bool
  response : Option PortalResponse
deriving DecidableEq

/-- Observable trace of one `freeDesktopPortal` call.  `returned` records
whether the call completed (`loop.exec()` came back); when it is `false`
the `ok`/`res` fields merely carry the unchanged in/out arguments. -/
structure PortalTrace where
  requestConstructed : Bool
  subscribedBeforeCall : Bool
  screenshotCalled : Bool
  returned : Bool
  closeCalled : Bool
  disconnected : Bool
  fileDeleted : Bool
  ok : Bool
  res : Pixmap
deriving DecidableEq

/-- Model of `ScreenGrabber::freeDesktopPortal`.  Preflight: if the service is not
registered, set `ok = false` and return — no request object, no bus call.
Otherwise construct the request object, connect to its `Response` signal
before calling `Screenshot`, and run a nested event loop that only quits
from the signal handler.  On `status == 0` the URI is loaded, its scale
reconciled and the file removed; any other status leaves `res` untouched.
After the loop the connection is dropped, `Close()` is called, and
`ok` is forced to `false` when `res` is still null. -/
def freeDesktopPortal (genv : GeometryEnv) (appDpr : ℚ) (okIn : Bool)
    (resIn : Pixmap) (env : PortalEnv) : PortalTrace :=
  if env.serviceRegistered = false then
    { requestConstructed := false, subscribedBeforeCall := false,
      screenshotCalled := false, returned := true, closeCalled := false,
      disconnected := false, fileDeleted := false, ok := false, res := resIn }
  else
    match env.response with
    | none =>
        { requestConstructed := true, subscribedBeforeCall := true,
          screenshotCalled := true, returned := false, closeCalled := false,
          disconnected := false, fileDeleted := false, ok := okIn, res := resIn }
    | some r =>
        let res1 :=
          if r.status = 0 then
            adjustDevicePixelScale genv appDpr (r.loadedImage.getD nullPixmap)
          else resIn
        { requestConstructed := true, subscribedBeforeCall := true,
          screenshotCalled := true, returned := true, closeCalled := true,
          disconnected := true, fileDeleted := r.status == 0,
          ok := if res1.isNull then false else okIn, res := res1 }

/-- Environment of one `ScreenGrabber::generalGrimScreenshot` call.
`waitFinished` models the return value of `QProcess::waitForFinished()`:
`true` exactly when the grim process finished within the timeout,
irrespective of its exit status; `false` on timeout or when the process
could not be started (missing tool).  `exitCode` is the process exit code —
the code never reads it.  `loadedFile` is the pixmap that
`res.load(imgPath, "ppm")` would produce (`none` when the file is missing
or unreadable, which leaves a null pixmap). -/
structure GrimEnv where
  useGrimAdapter : Bool
  waitFinished : Bool
  exitCode : Int
  loadedFile : Option Pixmap
deriving DecidableEq

/-- Observable trace of one `generalGrimScreenshot` call. -/
structure GrimTrace where
  ok : Bool
  res : Pixmap
  fileDeleted : Bool
  dprAdjusted : Bool
  advisoryEmitted : Bool
deriving DecidableEq

/-- Model of `ScreenGrabber::generalGrimScreenshot`: bail out (leaving `ok` and `res`
untouched) when the grim adapter is not enabled; when
`Process.waitForFinished()` is true, load the temp file, remove it,
reconcile the scale and set `ok = true`; otherwise set `ok = false` and emit
the missing-grim advisory. -/
def generalGrimScreenshot (genv : GeometryEnv) (appDpr : ℚ) (okIn : Bool)
    (resIn : Pixmap) (env : GrimEnv) : GrimTrace :=
  if env.useGrimAdapter = false then
    { ok := okIn, res := resIn, fileDeleted := false, dprAdjusted := false,
      advisoryEmitted := false }
  else if env.waitFinished then
    { ok := true,
      res := adjustDevicePixelScale genv appDpr (env.loadedFile.getD nullPixmap),
      fileDeleted := true, dprAdjusted := true, advisoryEmitted := false }
  else
    { ok := false, res := resIn, fileDeleted := false, dprAdjusted := false,
      advisoryEmitted := true }

/-- Folding a running minimum never rises above its initial value. -/
theorem foldl_min_le_init {α β : Type} [LinearOrder α] (f : β → α) (l : List β) (a : α) :
    l.foldl (fun acc b => min acc (f b)) a ≤ a := by
  induction l generalizing a with
  | nil => exact le_refl a
  | cons head tail ih =>
      exact le_trans (ih (min a (f head))) (min_le_left _ _)

/-- Folding a running minimum is bounded by every element folded in. -/
theorem foldl_min_le_mem {α β : Type} [LinearOrder α] (f : β → α) (l : List β) (a : α)
    (b : β) (hb : b ∈ l) :
    l.foldl (fun acc b => min acc (f b)) a ≤ f b := by
  induction l generalizing a with
  | nil => cases hb
  | cons head tail ih =>
      rcases List.mem_cons.mp hb with hb | hb
      · subst hb
        exact le_trans (foldl_min_le_init f tail (min a (f b))) (min_le_right _ _)
      · exact ih (min a (f head)) hb

/-- A common lower bound of the initial value and of all folded elements is
a lower bound of the folded minimum. -/
theorem le_foldl_min {α β : Type} [LinearOrder α] (f : β → α) (l : List β) (a c : α)
    (ha : c ≤ a) (hl : ∀ b ∈ l, c ≤ f b) :
    c ≤ l.foldl (fun acc b => min acc (f b)) a := by
  induction l generalizing a with
  | nil => exact ha
  | cons head tail ih =>
      exact ih (min a (f head)) (le_min ha (hl head (List.mem_cons_self head tail)))
        fun b hb => hl b (List.mem_cons_of_mem head hb)

/-- Folding a running maximum never drops below its initial value. -/
theorem init_le_foldl_max {α β : Type} [LinearOrder α] (f : β → α) (l : List β) (a : α) :
    a ≤ l.foldl (fun acc b => max acc (f b)) a := by
  induction l generalizing a with
  | nil => exact le_refl a
  | cons head tail ih =>
      exact le_trans (le_max_left _ _) (ih (max a (f head)))

/-- Every element folded in is bounded by the folded maximum. -/
theorem mem_le_foldl_max {α β : Type} [LinearOrder α] (f : β → α) (l : List β) (a : α)
    (b : β) (hb : b ∈ l) :
    f b ≤ l.foldl (fun acc b => max acc (f b)) a := by
  induction l generalizing a with
  | nil => cases hb
  | cons head tail ih =>
      rcases List.mem_cons.mp hb with hb | hb
      · subst hb
        exact le_trans (le_max_right _ _) (init_le_foldl_max f tail (max a (f b)))
      · exact ih (max a (f head)) hb

/-- A common upper bound of the initial value and of all folded elements is
an upper bound of the folded maximum. -/
theorem foldl_max_le {α β : Type} [LinearOrder α] (f : β → α) (l : List β) (a c : α)
    (ha : a ≤ c) (hl : ∀ b ∈ l, f b ≤ c) :
    l.foldl (fun acc b => max acc (f b)) a ≤ c := by
  induction l generalizing a with
  | nil => exact ha
  | cons head tail ih =>
      exact ih (max a (f head)) (max_le ha (hl head (List.mem_cons_self head tail)))
        fun b hb => hl b (List.mem_cons_of_mem head hb)

/-- A default-constructed `QRect` is the identity of `united`. -/
theorem qrect_united_null (r : QRect) : QRect.united ⟨0, 0, 0, 0⟩ r = r := by
  simp [QRect.united, QRect.isNull]

/-- Value of `QRect::united` on two rectangles of positive size is the componentwise
bounding box. -/
theorem qrect_united_char (a b : QRect) (haw : 0 < a.w) (hah : 0 < a.h)
    (hbw : 0 < b.w) (hbh : 0 < b.h) :
    a.united b = ⟨min a.x b.x, min a.y b.y,
                  max (a.x + a.w) (b.x + b.w) - min a.x b.x,
                  max (a.y + a.h) (b.y + b.h) - min a.y b.y⟩ := by
  have haw0 : (a.w == 0) = false := beq_eq_false_iff_ne.mpr (by omega)
  have hbw0 : (b.w == 0) = false := beq_eq_false_iff_ne.mpr (by omega)
  have ha : a.isNull = false := by rw [QRect.isNull, haw0, Bool.false_and]
  have hb : b.isNull = false := by rw [QRect.isNull, hbw0, Bool.false_and]
  have h1 : (1 : ℤ) ≤ a.w := by omega
  have h2 : (1 : ℤ) ≤ b.w := by omega
  have h3 : (1 : ℤ) ≤ a.h := by omega
  have h4 : (1 : ℤ) ≤ b.h := by omega
  rw [QRect.united]
  simp only [ha, hb, Bool.false_eq_true, if_false, ge_iff_le, if_pos h1, if_pos h2,
    if_pos h3, if_pos h4, QRect.mk.injEq]
  refine ⟨trivial, trivial, ?_, ?_⟩
  · rw [max_sub_sub_right]; ring
  · rw [max_sub_sub_right]; ring

/-- A default-constructed `QRectF` is the identity of `united`. -/
theorem qrectf_united_null (r : QRectF) : QRectF.united ⟨0, 0, 0, 0⟩ r = r := by
  simp [QRectF.united, QRectF.isNull]

/-- Value of `QRectF::united` on two rectangles of positive size is the componentwise
bounding box. -/
theorem qrectf_united_char (a b : QRectF) (haw : 0 < a.w) (hah : 0 < a.h)
    (hbw : 0 < b.w) (hbh : 0 < b.h) :
    a.united b = ⟨min a.x b.x, min a.y b.y,
                  max (a.x + a.w) (b.x + b.w) - min a.x b.x,
                  max (a.y + a.h) (b.y + b.h) - min a.y b.y⟩ := by
  have haw0 : (a.w == 0) = false := beq_eq_false_iff_ne.mpr haw.ne'
  have hbw0 : (b.w == 0) = false := beq_eq_false_iff_ne.mpr hbw.ne'
  have ha : a.isNull = false := by rw [QRectF.isNull, haw0, Bool.false_and]
  have hb : b.isNull = false := by rw [QRectF.isNull, hbw0, Bool.false_and]
  rw [QRectF.united]
  simp only [ha, hb, Bool.false_eq_true, if_false,
    if_neg (not_lt.mpr haw.le), if_neg (not_lt.mpr hbw.le),
    if_neg (not_lt.mpr hah.le), if_neg (not_lt.mpr hbh.le)]

/-- Uniting with a positive-size rectangle preserves positive size. -/
theorem qrect_united_size_pos (a b : QRect) (haw : 0 < a.w) (hah : 0 < a.h)
    (hbw : 0 < b.w) (hbh : 0 < b.h) :
    0 < (a.united b).w ∧ 0 < (a.united b).h := by
  rw [qrect_united_char a b haw hah hbw hbh]
  constructor
  · show 0 < max (a.x + a.w) (b.x + b.w) - min a.x b.x
    have h1 : min a.x b.x ≤ a.x := min_le_left _ _
    have h2 : a.x + a.w ≤ max (a.x + a.w) (b.x + b.w) := le_max_left _ _
    linarith
  · show 0 < max (a.y + a.h) (b.y + b.h) - min a.y b.y
    have h1 : min a.y b.y ≤ a.y := min_le_left _ _
    have h2 : a.y + a.h ≤ max (a.y + a.h) (b.y + b.h) := le_max_left _ _
    linarith

/-- Uniting `QRectF` values of positive size preserves positive size. -/
theorem qrectf_united_size_pos (a b : QRectF) (haw : 0 < a.w) (hah : 0 < a.h)
    (hbw : 0 < b.w) (hbh : 0 < b.h) :
    0 < (a.united b).w ∧ 0 < (a.united b).h := by
  rw [qrectf_united_char a b haw hah hbw hbh]
  constructor
  · show 0 < max (a.x + a.w) (b.x + b.w) - min a.x b.x
    have h1 : min a.x b.x ≤ a.x := min_le_left _ _
    have h2 : a.x + a.w ≤ max (a.x + a.w) (b.x + b.w) := le_max_left _ _
    linarith
  · show 0 < max (a.y + a.h) (b.y + b.h) - min a.y b.y
    have h1 : min a.y b.y ≤ a.y := min_le_left _ _
    have h2 : a.y + a.h ≤ max (a.y + a.h) (b.y + b.h) := le_max_left _ _
    linarith

/-- The physical-union fold keeps a positive size. -/
theorem screensFold_pos (l : List Screen) (acc : QRect) (hw : 0 < acc.w) (hh : 0 < acc.h)
    (hl : ∀ s ∈ l, 0 < s.geometry.w ∧ 0 < s.geometry.h) :
    0 < (l.foldl (fun g s => g.united s.geometry) acc).w ∧
    0 < (l.foldl (fun g s => g.united s.geometry) acc).h := by
  induction l generalizing acc with
  | nil => exact ⟨hw, hh⟩
  | cons head tail ih =>
      have hhead := hl head (List.mem_cons_self _ _)
      have hstep := qrect_united_size_pos acc head.geometry hw hh hhead.1 hhead.2
      exact ih (acc.united head.geometry) hstep.1 hstep.2
        fun s hs => hl s (List.mem_cons_of_mem _ hs)

/-- Left edge of the physical-union fold: the running minimum of the screen
origins. -/
theorem screensFold_x (l : List Screen) (acc : QRect) (hw : 0 < acc.w) (hh : 0 < acc.h)
    (hl : ∀ s ∈ l, 0 < s.geometry.w ∧ 0 < s.geometry.h) :
    (l.foldl (fun g s => g.united s.geometry) acc).x =
      l.foldl (fun q s => min q s.geometry.x) acc.x := by
  induction l generalizing acc with
  | nil => rfl
  | cons head tail ih =>
      have hhead := hl head (List.mem_cons_self _ _)
      have hstep := qrect_united_size_pos acc head.geometry hw hh hhead.1 hhead.2
      have htail := fun s hs => hl s (List.mem_cons_of_mem head hs)
      simp only [List.foldl_cons]
      rw [ih (acc.united head.geometry) hstep.1 hstep.2 htail,
        qrect_united_char acc head.geometry hw hh hhead.1 hhead.2]

/-- Top edge of the physical-union fold. -/
theorem screensFold_y (l : List Screen) (acc : QRect) (hw : 0 < acc.w) (hh : 0 < acc.h)
    (hl : ∀ s ∈ l, 0 < s.geometry.w ∧ 0 < s.geometry.h) :
    (l.foldl (fun g s => g.united s.geometry) acc).y =
      l.foldl (fun q s => min q s.geometry.y) acc.y := by
  induction l generalizing acc with
  | nil => rfl
  | cons head tail ih =>
      have hhead := hl head (List.mem_cons_self _ _)
      have hstep := qrect_united_size_pos acc head.geometry hw hh hhead.1 hhead.2
      have htail := fun s hs => hl s (List.mem_cons_of_mem head hs)
      simp only [List.foldl_cons]
      rw [ih (acc.united head.geometry) hstep.1 hstep.2 htail,
        qrect_united_char acc head.geometry hw hh hhead.1 hhead.2]

/-- Right edge (`x + w`) of the physical-union fold: the running maximum of
the per-screen right edges. -/
theorem screensFold_right (l : List Screen) (acc : QRect) (hw : 0 < acc.w) (hh : 0 < acc.h)
    (hl : ∀ s ∈ l, 0 < s.geometry.w ∧ 0 < s.geometry.h) :
    (l.foldl (fun g s => g.united s.geometry) acc).x +
        (l.foldl (fun g s => g.united s.geometry) acc).w =
      l.foldl (fun q s => max q (s.geometry.x + s.geometry.w)) (acc.x + acc.w) := by
  induction l generalizing acc with
  | nil => rfl
  | cons head tail ih =>
      have hhead := hl head (List.mem_cons_self _ _)
      have hstep := qrect_united_size_pos acc head.geometry hw hh hhead.1 hhead.2
      have htail := fun s hs => hl s (List.mem_cons_of_mem head hs)
      simp only [List.foldl_cons]
      rw [ih (acc.united head.geometry) hstep.1 hstep.2 htail,
        qrect_united_char acc head.geometry hw hh hhead.1 hhead.2]
      show List.foldl _
          (min acc.x head.geometry.x +
            (max (acc.x + acc.w) (head.geometry.x + head.geometry.w) -
              min acc.x head.geometry.x)) _ = _
      rw [add_sub_cancel]

/-- Bottom edge (`y + h`) of the physical-union fold. -/
theorem screensFold_bottom (l : List Screen) (acc : QRect) (hw : 0 < acc.w) (hh : 0 < acc.h)
    (hl : ∀ s ∈ l, 0 < s.geometry.w ∧ 0 < s.geometry.h) :
    (l.foldl (fun g s => g.united s.geometry) acc).y +
        (l.foldl (fun g s => g.united s.geometry) acc).h =
      l.foldl (fun q s => max q (s.geometry.y + s.geometry.h)) (acc.y + acc.h) := by
  induction l generalizing acc with
  | nil => rfl
  | cons head tail ih =>
      have hhead := hl head (List.mem_cons_self _ _)
      have hstep := qrect_united_size_pos acc head.geometry hw hh hhead.1 hhead.2
      have htail := fun s hs => hl s (List.mem_cons_of_mem head hs)
      simp only [List.foldl_cons]
      rw [ih (acc.united head.geometry) hstep.1 hstep.2 htail,
        qrect_united_char acc head.geometry hw hh hhead.1 hhead.2]
      show List.foldl _
          (min acc.y head.geometry.y +
            (max (acc.y + acc.h) (head.geometry.y + head.geometry.h) -
              min acc.y head.geometry.y)) _ = _
      rw [add_sub_cancel]

/-- The logical-union fold keeps a positive size. -/
theorem screensFoldF_pos (l : List Screen) (acc : QRectF) (hw : 0 < acc.w) (hh : 0 < acc.h)
    (hl : ∀ s ∈ l, 0 < (screenLogicalRectF s).w ∧ 0 < (screenLogicalRectF s).h) :
    0 < (l.foldl (fun g s => g.united (screenLogicalRectF s)) acc).w ∧
    0 < (l.foldl (fun g s => g.united (screenLogicalRectF s)) acc).h := by
  induction l generalizing acc with
  | nil => exact ⟨hw, hh⟩
  | cons head tail ih =>
      have hhead := hl head (List.mem_cons_self _ _)
      have hstep := qrectf_united_size_pos acc (screenLogicalRectF head) hw hh hhead.1 hhead.2
      exact ih (acc.united (screenLogicalRectF head)) hstep.1 hstep.2
        fun s hs => hl s (List.mem_cons_of_mem _ hs)

/-- Left edge of the logical-union fold. -/
theorem screensFoldF_x (l : List Screen) (acc : QRectF) (hw : 0 < acc.w) (hh : 0 < acc.h)
    (hl : ∀ s ∈ l, 0 < (screenLogicalRectF s).w ∧ 0 < (screenLogicalRectF s).h) :
    (l.foldl (fun g s => g.united (screenLogicalRectF s)) acc).x =
      l.foldl (fun q s => min q (screenLogicalRectF s).x) acc.x := by
  induction l generalizing acc with
  | nil => rfl
  | cons head tail ih =>
      have hhead := hl head (List.mem_cons_self _ _)
      have hstep := qrectf_united_size_pos acc (screenLogicalRectF head) hw hh hhead.1 hhead.2
      have htail := fun s hs => hl s (List.mem_cons_of_mem head hs)
      simp only [List.foldl_cons]
      rw [ih (acc.united (screenLogicalRectF head)) hstep.1 hstep.2 htail,
        qrectf_united_char acc (screenLogicalRectF head) hw hh hhead.1 hhead.2]

/-- Top edge of the logical-union fold. -/
theorem screensFoldF_y (l : List Screen) (acc : QRectF) (hw : 0 < acc.w) (hh : 0 < acc.h)
    (hl : ∀ s ∈ l, 0 < (screenLogicalRectF s).w ∧ 0 < (screenLogicalRectF s).h) :
    (l.foldl (fun g s => g.united (screenLogicalRectF s)) acc).y =
      l.foldl (fun q s => min q (screenLogicalRectF s).y) acc.y := by
  induction l generalizing acc with
  | nil => rfl
  | cons head tail ih =>
      have hhead := hl head (List.mem_cons_self _ _)
      have hstep := qrectf_united_size_pos acc (screenLogicalRectF head) hw hh hhead.1 hhead.2
      have htail := fun s hs => hl s (List.mem_cons_of_mem head hs)
      simp only [List.foldl_cons]
      rw [ih (acc.united (screenLogicalRectF head)) hstep.1 hstep.2 htail,
        qrectf_united_char acc (screenLogicalRectF head) hw hh hhead.1 hhead.2]

/-- Right edge of the logical-union fold. -/
theorem screensFoldF_right (l : List Screen) (acc : QRectF) (hw : 0 < acc.w) (hh : 0 < acc.h)
    (hl : ∀ s ∈ l, 0 < (screenLogicalRectF s).w ∧ 0 < (screenLogicalRectF s).h) :
    (l.foldl (fun g s => g.united (screenLogicalRectF s)) acc).x +
        (l.foldl (fun g s => g.united (screenLogicalRectF s)) acc).w =
      l.foldl (fun q s => max q ((screenLogicalRectF s).x + (screenLogicalRectF s).w))
        (acc.x + acc.w) := by
  induction l generalizing acc with
  | nil => rfl
  | cons head tail ih =>
      have hhead := hl head (List.mem_cons_self _ _)
      have hstep := qrectf_united_size_pos acc (screenLogicalRectF head) hw hh hhead.1 hhead.2
      have htail := fun s hs => hl s (List.mem_cons_of_mem head hs)
      simp only [List.foldl_cons]
      rw [ih (acc.united (screenLogicalRectF head)) hstep.1 hstep.2 htail,
        qrectf_united_char acc (screenLogicalRectF head) hw hh hhead.1 hhead.2]
      show List.foldl _
          (min acc.x (screenLogicalRectF head).x +
            (max (acc.x + acc.w) ((screenLogicalRectF head).x + (screenLogicalRectF head).w) -
              min acc.x (screenLogicalRectF head).x)) _ = _
      rw [add_sub_cancel]

/-- Bottom edge of the logical-union fold. -/
theorem screensFoldF_bottom (l : List Screen) (acc : QRectF) (hw : 0 < acc.w) (hh : 0 < acc.h)
    (hl : ∀ s ∈ l, 0 < (screenLogicalRectF s).w ∧ 0 < (screenLogicalRectF s).h) :
    (l.foldl (fun g s => g.united (screenLogicalRectF s)) acc).y +
        (l.foldl (fun g s => g.united (screenLogicalRectF s)) acc).h =
      l.foldl (fun q s => max q ((screenLogicalRectF s).y + (screenLogicalRectF s).h))
        (acc.y + acc.h) := by
  induction l generalizing acc with
  | nil => rfl
  | cons head tail ih =>
      have hhead := hl head (List.mem_cons_self _ _)
      have hstep := qrectf_united_size_pos acc (screenLogicalRectF head) hw hh hhead.1 hhead.2
      have htail := fun s hs => hl s (List.mem_cons_of_mem head hs)
      simp only [List.foldl_cons]
      rw [ih (acc.united (screenLogicalRectF head)) hstep.1 hstep.2 htail,
        qrectf_united_char acc (screenLogicalRectF head) hw hh hhead.1 hhead.2]
      show List.foldl _
          (min acc.y (screenLogicalRectF head).y +
            (max (acc.y + acc.h) ((screenLogicalRectF head).y + (screenLogicalRectF head).h) -
              min acc.y (screenLogicalRectF head).y)) _ = _
      rw [add_sub_cancel]

/-- Generic-path comparison: for a nonempty screen list with positive
sizes, nonnegative origins, an origin on each axis, and every scale at
least 1, the aligned logical union is no larger than the physical union. -/
theorem generic_logical_le_physical (a : Screen) (l : List Screen)
    (hpos : ∀ s ∈ a :: l, 0 < s.geometry.w ∧ 0 < s.geometry.h)
    (horg : ∀ s ∈ a :: l, 0 ≤ s.geometry.x ∧ 0 ≤ s.geometry.y)
    (hscale : ∀ s ∈ a :: l, 1 ≤ s.dpr)
    (hx0 : ∃ s ∈ a :: l, s.geometry.x = 0)
    (hy0 : ∃ s ∈ a :: l, s.geometry.y = 0) :
    (genericLogicalDesktopGeometry (a :: l)).w ≤ (genericDesktopGeometry (a :: l)).w ∧
    (genericLogicalDesktopGeometry (a :: l)).h ≤ (genericDesktopGeometry (a :: l)).h := by
  have hposa := hpos a (List.mem_cons_self _ _)
  have hposl : ∀ s ∈ l, 0 < s.geometry.w ∧ 0 < s.geometry.h :=
    fun s hs => hpos s (List.mem_cons_of_mem _ hs)
  have hdpos : ∀ s ∈ a :: l, (0 : ℚ) < s.dpr :=
    fun s hs => lt_of_lt_of_le one_pos (hscale s hs)
  have hlogpos : ∀ s ∈ a :: l,
      0 < (screenLogicalRectF s).w ∧ 0 < (screenLogicalRectF s).h := by
    intro s hs
    constructor
    · show (0 : ℚ) < (s.geometry.w : ℚ) / s.dpr
      exact div_pos (by exact_mod_cast (hpos s hs).1) (hdpos s hs)
    · show (0 : ℚ) < (s.geometry.h : ℚ) / s.dpr
      exact div_pos (by exact_mod_cast (hpos s hs).2) (hdpos s hs)
  have hlogposa := hlogpos a (List.mem_cons_self _ _)
  have hlogposl : ∀ s ∈ l, 0 < (screenLogicalRectF s).w ∧ 0 < (screenLogicalRectF s).h :=
    fun s hs => hlogpos s (List.mem_cons_of_mem _ hs)
  have hPx := screensFold_x l a.geometry hposa.1 hposa.2 hposl
  have hPy := screensFold_y l a.geometry hposa.1 hposa.2 hposl
  have hPr := screensFold_right l a.geometry hposa.1 hposa.2 hposl
  have hPb := screensFold_bottom l a.geometry hposa.1 hposa.2 hposl
  have hFx := screensFoldF_x l (screenLogicalRectF a) hlogposa.1 hlogposa.2 hlogposl
  have hFy := screensFoldF_y l (screenLogicalRectF a) hlogposa.1 hlogposa.2 hlogposl
  have hFr := screensFoldF_right l (screenLogicalRectF a) hlogposa.1 hlogposa.2 hlogposl
  have hFb := screensFoldF_bottom l (screenLogicalRectF a) hlogposa.1 hlogposa.2 hlogposl
  -- logical left/top edges are nonnegative
  have hxnn : ∀ s ∈ a :: l, (0 : ℚ) ≤ (screenLogicalRectF s).x := by
    intro s hs
    show (0 : ℚ) ≤ (s.geometry.x : ℚ) / s.dpr
    exact div_nonneg (by exact_mod_cast (horg s hs).1) (hdpos s hs).le
  have hynn : ∀ s ∈ a :: l, (0 : ℚ) ≤ (screenLogicalRectF s).y := by
    intro s hs
    show (0 : ℚ) ≤ (s.geometry.y : ℚ) / s.dpr
    exact div_nonneg (by exact_mod_cast (horg s hs).2) (hdpos s hs).le
  have hq1 : (0 : ℚ) ≤
      List.foldl (fun q s => min q (screenLogicalRectF s).x) (screenLogicalRectF a).x l :=
    le_foldl_min _ l _ 0 (hxnn a (List.mem_cons_self _ _))
      fun s hs => hxnn s (List.mem_cons_of_mem _ hs)
  have hq1y : (0 : ℚ) ≤
      List.foldl (fun q s => min q (screenLogicalRectF s).y) (screenLogicalRectF a).y l :=
    le_foldl_min _ l _ 0 (hynn a (List.mem_cons_self _ _))
      fun s hs => hynn s (List.mem_cons_of_mem _ hs)
  -- each logical right edge is bounded by the integer physical maximum
  have hMX : ∀ s ∈ a :: l, (screenLogicalRectF s).x + (screenLogicalRectF s).w ≤
      ((List.foldl (fun q s => max q (s.geometry.x + s.geometry.w))
        (a.geometry.x + a.geometry.w) l : ℤ) : ℚ) := by
    intro s hs
    have hsum : (screenLogicalRectF s).x + (screenLogicalRectF s).w =
        ((s.geometry.x + s.geometry.w : ℤ) : ℚ) / s.dpr := by
      show (s.geometry.x : ℚ) / s.dpr + (s.geometry.w : ℚ) / s.dpr = _
      rw [div_add_div_same]
      push_cast
      ring
    rw [hsum]
    have h0 : (0 : ℚ) ≤ ((s.geometry.x + s.geometry.w : ℤ) : ℚ) := by
      have h1 := (horg s hs).1
      have h2 := (hpos s hs).1
      push_cast
      have h1q : (0 : ℚ) ≤ (s.geometry.x : ℚ) := by exact_mod_cast h1
      have h2q : (0 : ℚ) < (s.geometry.w : ℚ) := by exact_mod_cast h2
      linarith
    refine (div_le_self h0 (hscale s hs)).trans ?_
    have hbound : s.geometry.x + s.geometry.w ≤
        List.foldl (fun q s => max q (s.geometry.x + s.geometry.w))
          (a.geometry.x + a.geometry.w) l := by
      rcases List.mem_cons.mp hs with h | h
      · rw [h]
        exact init_le_foldl_max (fun s => s.geometry.x + s.geometry.w) l
          (a.geometry.x + a.geometry.w)
      · exact mem_le_foldl_max (fun s => s.geometry.x + s.geometry.w) l
          (a.geometry.x + a.geometry.w) s h
    exact_mod_cast hbound
  have hMY : ∀ s ∈ a :: l, (screenLogicalRectF s).y + (screenLogicalRectF s).h ≤
      ((List.foldl (fun q s => max q (s.geometry.y + s.geometry.h))
        (a.geometry.y + a.geometry.h) l : ℤ) : ℚ) := by
    intro s hs
    have hsum : (screenLogicalRectF s).y + (screenLogicalRectF s).h =
        ((s.geometry.y + s.geometry.h : ℤ) : ℚ) / s.dpr := by
      show (s.geometry.y : ℚ) / s.dpr + (s.geometry.h : ℚ) / s.dpr = _
      rw [div_add_div_same]
      push_cast
      ring
    rw [hsum]
    have h0 : (0 : ℚ) ≤ ((s.geometry.y + s.geometry.h : ℤ) : ℚ) := by
      have h1 := (horg s hs).2
      have h2 := (hpos s hs).2
      push_cast
      have h1q : (0 : ℚ) ≤ (s.geometry.y : ℚ) := by exact_mod_cast h1
      have h2q : (0 : ℚ) < (s.geometry.h : ℚ) := by exact_mod_cast h2
      linarith
    refine (div_le_self h0 (hscale s hs)).trans ?_
    have hbound : s.geometry.y + s.geometry.h ≤
        List.foldl (fun q s => max q (s.geometry.y + s.geometry.h))
          (a.geometry.y + a.geometry.h) l := by
      rcases List.mem_cons.mp hs with h | h
      · rw [h]
        exact init_le_foldl_max (fun s => s.geometry.y + s.geometry.h) l
          (a.geometry.y + a.geometry.h)
      · exact mem_le_foldl_max (fun s => s.geometry.y + s.geometry.h) l
          (a.geometry.y + a.geometry.h) s h
    exact_mod_cast hbound
  have hq2 : List.foldl (fun q s => max q ((screenLogicalRectF s).x + (screenLogicalRectF s).w))
      ((screenLogicalRectF a).x + (screenLogicalRectF a).w) l ≤
      ((List.foldl (fun q s => max q (s.geometry.x + s.geometry.w))
        (a.geometry.x + a.geometry.w) l : ℤ) : ℚ) :=
    foldl_max_le _ l _ _ (hMX a (List.mem_cons_self _ _))
      fun s hs => hMX s (List.mem_cons_of_mem _ hs)
  have hq2y : List.foldl (fun q s => max q ((screenLogicalRectF s).y + (screenLogicalRectF s).h))
      ((screenLogicalRectF a).y + (screenLogicalRectF a).h) l ≤
      ((List.foldl (fun q s => max q (s.geometry.y + s.geometry.h))
        (a.geometry.y + a.geometry.h) l : ℤ) : ℚ) :=
    foldl_max_le _ l _ _ (hMY a (List.mem_cons_self _ _))
      fun s hs => hMY s (List.mem_cons_of_mem _ hs)
  -- the physical left/top edges collapse to 0
  obtain ⟨sx, hsx, hsx0⟩ := hx0
  obtain ⟨sy, hsy, hsy0⟩ := hy0
  have hmx_ge : 0 ≤ List.foldl (fun q s => min q s.geometry.x) a.geometry.x l :=
    le_foldl_min _ l _ 0 (horg a (List.mem_cons_self _ _)).1
      fun s hs => (horg s (List.mem_cons_of_mem _ hs)).1
  have hmy_ge : 0 ≤ List.foldl (fun q s => min q s.geometry.y) a.geometry.y l :=
    le_foldl_min _ l _ 0 (horg a (List.mem_cons_self _ _)).2
      fun s hs => (horg s (List.mem_cons_of_mem _ hs)).2
  have hmx_le : List.foldl (fun q s => min q s.geometry.x) a.geometry.x l ≤ 0 := by
    rcases List.mem_cons.mp hsx with h | h
    · refine le_of_le_of_eq (foldl_min_le_init _ l _) ?_
      rw [← h]
      exact hsx0
    · exact le_of_le_of_eq (foldl_min_le_mem _ l _ sx h) hsx0
  have hmy_le : List.foldl (fun q s => min q s.geometry.y) a.geometry.y l ≤ 0 := by
    rcases List.mem_cons.mp hsy with h | h
    · refine le_of_le_of_eq (foldl_min_le_init _ l _) ?_
      rw [← h]
      exact hsy0
    · exact le_of_le_of_eq (foldl_min_le_mem _ l _ sy h) hsy0
  -- integer bounds via floor and ceiling
  have hfl : 0 ≤ ⌊List.foldl (fun q s => min q (screenLogicalRectF s).x)
      (screenLogicalRectF a).x l⌋ := Int.le_floor.mpr (by exact_mod_cast hq1)
  have hfly : 0 ≤ ⌊List.foldl (fun q s => min q (screenLogicalRectF s).y)
      (screenLogicalRectF a).y l⌋ := Int.le_floor.mpr (by exact_mod_cast hq1y)
  have hcl : ⌈List.foldl (fun q s => max q ((screenLogicalRectF s).x + (screenLogicalRectF s).w))
      ((screenLogicalRectF a).x + (screenLogicalRectF a).w) l⌉ ≤
      List.foldl (fun q s => max q (s.geometry.x + s.geometry.w))
        (a.geometry.x + a.geometry.w) l := Int.ceil_le.mpr hq2
  have hcly : ⌈List.foldl (fun q s => max q ((screenLogicalRectF s).y + (screenLogicalRectF s).h))
      ((screenLogicalRectF a).y + (screenLogicalRectF a).h) l⌉ ≤
      List.foldl (fun q s => max q (s.geometry.y + s.geometry.h))
        (a.geometry.y + a.geometry.h) l := Int.ceil_le.mpr hq2y
  rw [genericDesktopGeometry, genericLogicalDesktopGeometry]
  simp only [List.foldl_cons]
  rw [qrect_united_null, qrectf_united_null]
  constructor
  · show (QRectF.toAlignedRect _).w ≤ _
    rw [QRectF.toAlignedRect]
    show ⌈(List.foldl (fun g s => g.united (screenLogicalRectF s)) (screenLogicalRectF a) l).x +
        (List.foldl (fun g s => g.united (screenLogicalRectF s)) (screenLogicalRectF a) l).w⌉ -
        ⌊(List.foldl (fun g s => g.united (screenLogicalRectF s)) (screenLogicalRectF a) l).x⌋ ≤ _
    rw [hFr, hFx]
    linarith [hPx, hPr, hcl, hfl, hmx_ge, hmx_le]
  · show (QRectF.toAlignedRect _).h ≤ _
    rw [QRectF.toAlignedRect]
    show ⌈(List.foldl (fun g s => g.united (screenLogicalRectF s)) (screenLogicalRectF a) l).y +
        (List.foldl (fun g s => g.united (screenLogicalRectF s)) (screenLogicalRectF a) l).h⌉ -
        ⌊(List.foldl (fun g s => g.united (screenLogicalRectF s)) (screenLogicalRectF a) l).y⌋ ≤ _
    rw [hFb, hFy]
    linarith [hPy, hPb, hcly, hfly, hmy_ge, hmy_le]

/-- A `HyprctlEnv` of a non-Hyprland session: the introspection path
returns `false` before running any subprocess. -/
def hyprOff : HyprctlEnv := ⟨false, false, none⟩

/-- A `GeometryEnv` with no screens at all, used to instantiate theorems
whose conclusion does not depend on the geometry. -/
def genv0 : GeometryEnv := ⟨hyprOff, []⟩

/-- Single-screen environment in which physical and logical geometry agree:
one screen at the origin, 1000 times 1000, scale 1. -/
def envW1 : GeometryEnv := ⟨hyprOff, [⟨⟨0, 0, 1000, 1000⟩, 1⟩]⟩

/-- Single-screen environment in which physical and logical geometry differ:
one screen at the origin, 2000 times 2000, scale 2. -/
def envW2 : GeometryEnv := ⟨hyprOff, [⟨⟨0, 0, 2000, 2000⟩, 2⟩]⟩

theorem desktopGeometry_envW1 : desktopGeometry envW1 = ⟨0, 0, 1000, 1000⟩ := by decide

theorem desktopGeometry_envW2 : desktopGeometry envW2 = ⟨0, 0, 2000, 2000⟩ := by decide

theorem logicalDesktopGeometry_envW1 : logicalDesktopGeometry envW1 = ⟨0, 0, 1000, 1000⟩ := by
  norm_num [logicalDesktopGeometry, hyprlandDesktopGeometries, genericLogicalDesktopGeometry,
    envW1, hyprOff, List.foldl, screenLogicalRectF, QRectF.united, QRectF.isNull,
    QRectF.toAlignedRect]

theorem logicalDesktopGeometry_envW2 : logicalDesktopGeometry envW2 = ⟨0, 0, 1000, 1000⟩ := by
  norm_num [logicalDesktopGeometry, hyprlandDesktopGeometries, genericLogicalDesktopGeometry,
    envW2, hyprOff, List.foldl, screenLogicalRectF, QRectF.united, QRectF.isNull,
    QRectF.toAlignedRect]

/-- C1: `adjustDevicePixelRatio` follows the three-case policy: image size
equal to the physical geometry size sets the tag to the ambient application
device-pixel-ratio; image size equal to neither geometry size sets the tag
to `image.height / logicalGeometry.height`; image size equal to the logical
geometry size leaves the pixmap unchanged. -/
theorem C1_adjust_policy (genv : GeometryEnv) (appDpr : ℚ) (p : Pixmap) :
    (p.size = (desktopGeometry genv).size →
      adjustDevicePixelScale genv appDpr p = { p with dpr := appDpr }) ∧
    (p.size ≠ (desktopGeometry genv).size → p.size ≠ (logicalDesktopGeometry genv).size →
      adjustDevicePixelScale genv appDpr p =
        { p with dpr := (p.height : ℚ) / ((logicalDesktopGeometry genv).h : ℚ) }) ∧
    (p.size ≠ (desktopGeometry genv).size → p.size = (logicalDesktopGeometry genv).size →
      adjustDevicePixelScale genv appDpr p = p) := by
  refine ⟨fun h1 => ?_, fun h1 h2 => ?_, fun h1 h2 => ?_⟩
  · simp only [adjustDevicePixelScale, if_pos h1]
  · simp only [adjustDevicePixelScale, if_neg h1, if_pos h2]
  · simp only [adjustDevicePixelScale, if_neg h1, if_neg (not_not_intro h2)]

/-- C1 witness: the three cases at concrete inputs; in particular an image
of height 2000 against logical height 1000 receives scale 2. -/
theorem C1_adjust_policy_witness :
    adjustDevicePixelScale envW1 (7/4) ⟨1000, 1000, 1⟩ = ⟨1000, 1000, 7/4⟩ ∧
    adjustDevicePixelScale envW1 1 ⟨2000, 2000, 1⟩ = ⟨2000, 2000, 2⟩ ∧
    adjustDevicePixelScale envW2 1 ⟨1000, 1000, 5⟩ = ⟨1000, 1000, 5⟩ := by
  refine ⟨?_, ?_, ?_⟩
  · have h := (C1_adjust_policy envW1 (7/4) ⟨1000, 1000, 1⟩).1
      (by rw [desktopGeometry_envW1]; rfl)
    rw [h]
  · have h := (C1_adjust_policy envW1 1 ⟨2000, 2000, 1⟩).2.1
      (by rw [desktopGeometry_envW1]; decide)
      (by rw [logicalDesktopGeometry_envW1]; decide)
    rw [h, logicalDesktopGeometry_envW1]
    show Pixmap.mk 2000 2000 ((2000 : ℚ) / 1000) = ⟨2000, 2000, 2⟩
    norm_num
  · exact (C1_adjust_policy envW2 1 ⟨1000, 1000, 5⟩).2.2
      (by rw [desktopGeometry_envW2]; decide)
      (by rw [logicalDesktopGeometry_envW2]; rfl)

/-- C2: the Wayland dispatcher sends GNOME, KDE and COSMIC to the portal
backend unconditionally; QTILE, WLROOTS, HYPRLAND and OTHER to the grim
backend exactly when `useGrimAdapter` is set, else to the portal backend;
and fails with no backend for an unclassified window manager. -/
theorem C2_backend_dispatch (cfg : Config) (pOk gOk : Bool) :
    (∀ wm ∈ [WindowManager.GNOME, WindowManager.KDE, WindowManager.COSMIC],
      grabEntireDesktopWayland wm cfg pOk gOk = (pOk, some Backend.portal)) ∧
    (∀ wm ∈ [WindowManager.QTILE, WindowManager.WLROOTS, WindowManager.HYPRLAND,
        WindowManager.OTHER],
      grabEntireDesktopWayland wm cfg pOk gOk =
        if cfg.useGrimAdapter then (gOk, some Backend.grim)
        else (pOk, some Backend.portal)) ∧
    grabEntireDesktopWayland WindowManager.UNCLASSIFIED cfg pOk gOk = (false, none) := by
  refine ⟨?_, ?_, rfl⟩ <;> intro wm hwm <;> fin_cases hwm <;>
    cases hcfg : cfg.useGrimAdapter <;> simp [grabEntireDesktopWayland, hcfg]

/-- C2 witness: one family member of each group at concrete configurations. -/
theorem C2_backend_dispatch_witness :
    grabEntireDesktopWayland WindowManager.GNOME ⟨true, false⟩ true false
      = (true, some Backend.portal) ∧
    grabEntireDesktopWayland WindowManager.QTILE ⟨true, false⟩ true false
      = (false, some Backend.grim) ∧
    grabEntireDesktopWayland WindowManager.WLROOTS ⟨false, false⟩ true false
      = (true, some Backend.portal) ∧
    grabEntireDesktopWayland WindowManager.UNCLASSIFIED ⟨false, false⟩ true true
      = (false, none) := by
  refine ⟨?_, ?_, ?_, ?_⟩
  · exact (C2_backend_dispatch ⟨true, false⟩ true false).1 WindowManager.GNOME (by simp)
  · rw [(C2_backend_dispatch ⟨true, false⟩ true false).2.1 WindowManager.QTILE (by simp)]
    rfl
  · rw [(C2_backend_dispatch ⟨false, false⟩ true false).2.1 WindowManager.WLROOTS (by simp)]
    rfl
  · exact (C2_backend_dispatch ⟨false, false⟩ true true).2.2

/-- C3: when the portal service is not registered on the session bus, the
call fails immediately with `ok = false`, constructs no request object and
issues no Screenshot bus call. -/
theorem C3_portal_preflight (genv : GeometryEnv) (appDpr : ℚ) (okIn : Bool) (resIn : Pixmap)
    (env : PortalEnv) (hreg : env.serviceRegistered = false) :
    (freeDesktopPortal genv appDpr okIn resIn env).ok = false ∧
    (freeDesktopPortal genv appDpr okIn resIn env).requestConstructed = false ∧
    (freeDesktopPortal genv appDpr okIn resIn env).screenshotCalled = false := by
  rw [freeDesktopPortal, if_pos hreg]
  exact ⟨rfl, rfl, rfl⟩

/-- C3 witness: concrete unregistered-service environment. -/
theorem C3_portal_preflight_witness :
    (freeDesktopPortal genv0 1 true nullPixmap ⟨false, none⟩).ok = false ∧
    (freeDesktopPortal genv0 1 true nullPixmap ⟨false, none⟩).requestConstructed = false ∧
    (freeDesktopPortal genv0 1 true nullPixmap ⟨false, none⟩).screenshotCalled = false :=
  C3_portal_preflight genv0 1 true nullPixmap ⟨false, none⟩ rfl

/-- C4: whenever the portal round trip receives its correlated response
(any status), `Close` is invoked and the signal connection dropped; a
non-zero status additionally yields `ok = false` and leaves the (null)
pixmap untouched. -/
theorem C4_portal_decline_cleanup (genv : GeometryEnv) (appDpr : ℚ) (okIn : Bool)
    (env : PortalEnv) (r : PortalResponse) (hreg : env.serviceRegistered = true)
    (hresp : env.response = some r) :
    (freeDesktopPortal genv appDpr okIn nullPixmap env).closeCalled = true ∧
    (freeDesktopPortal genv appDpr okIn nullPixmap env).disconnected = true ∧
    (r.status ≠ 0 →
      (freeDesktopPortal genv appDpr okIn nullPixmap env).ok = false ∧
      (freeDesktopPortal genv appDpr okIn nullPixmap env).res = nullPixmap) := by
  simp only [freeDesktopPortal, hreg, hresp]
  refine ⟨by simp, by simp, fun hst => ?_⟩
  simp [if_neg hst, nullPixmap, Pixmap.isNull]

/-- C4 witness: a declined response (status 1) at a concrete environment. -/
theorem C4_portal_decline_cleanup_witness :
    (freeDesktopPortal genv0 1 true nullPixmap ⟨true, some ⟨1, none⟩⟩).closeCalled = true ∧
    (freeDesktopPortal genv0 1 true nullPixmap ⟨true, some ⟨1, none⟩⟩).disconnected = true ∧
    (freeDesktopPortal genv0 1 true nullPixmap ⟨true, some ⟨1, none⟩⟩).ok = false ∧
    (freeDesktopPortal genv0 1 true nullPixmap ⟨true, some ⟨1, none⟩⟩).res = nullPixmap := by
  have h := C4_portal_decline_cleanup genv0 1 true ⟨true, some ⟨1, none⟩⟩ ⟨1, none⟩ rfl rfl
  have h2 := h.2.2 (by decide)
  exact ⟨h.1, h.2.1, h2.1, h2.2⟩

/-- C5 counterexample: the portal wait has no timeout.  With the service
registered and a broker that never responds, the nested event loop never
quits and the call never returns, refuting the claim that the wait always
terminates. -/
theorem C5_no_timeout_cex :
    (freeDesktopPortal genv0 1 true nullPixmap ⟨true, none⟩).returned = false := rfl

/-- C5 amended: the calling flow is suspended until the correlated response
signal fires, and only then; the code installs no timeout, so the call
returns exactly when the broker responds. -/
theorem C5_wait_terminates_iff (genv : GeometryEnv) (appDpr : ℚ) (okIn : Bool)
    (resIn : Pixmap) (env : PortalEnv) (hreg : env.serviceRegistered = true) :
    (freeDesktopPortal genv appDpr okIn resIn env).returned = true ↔
      env.response.isSome = true := by
  rcases henv : env.response with _ | r <;> simp [freeDesktopPortal, hreg, henv]

/-- C5 witness: a fired response makes the call return. -/
theorem C5_wait_terminates_iff_witness :
    (freeDesktopPortal genv0 1 true nullPixmap ⟨true, some ⟨1, none⟩⟩).returned = true :=
  (C5_wait_terminates_iff genv0 1 true nullPixmap ⟨true, some ⟨1, none⟩⟩ rfl).mpr rfl

/-- C6 counterexample: a grim process that finished with a non-zero exit
code (here 1, with no output file produced).  `QProcess::waitForFinished`
is still true, so the code reports `ok = true` with no advisory — the
claim demands `ok = false` on a non-zero exit. -/
theorem C6_nonzero_exit_cex :
    (generalGrimScreenshot genv0 1 false nullPixmap ⟨true, true, 1, none⟩).ok = true ∧
    (generalGrimScreenshot genv0 1 false nullPixmap
      ⟨true, true, 1, none⟩).advisoryEmitted = false := ⟨rfl, rfl⟩

/-- C6 amended: with the grim adapter enabled, a process that finished
(regardless of its exit code) has its file loaded, the temporary deleted,
the scale reconciled and `ok = true`; only a process that did not finish
(timeout or missing tool) yields `ok = false` together with the
missing-dependency advisory. -/
theorem C6_grim_outcome (genv : GeometryEnv) (appDpr : ℚ) (okIn : Bool) (resIn : Pixmap)
    (env : GrimEnv) (henabled : env.useGrimAdapter = true) :
    (env.waitFinished = true →
      (generalGrimScreenshot genv appDpr okIn resIn env).ok = true ∧
      (generalGrimScreenshot genv appDpr okIn resIn env).fileDeleted = true ∧
      (generalGrimScreenshot genv appDpr okIn resIn env).dprAdjusted = true ∧
      (generalGrimScreenshot genv appDpr okIn resIn env).res =
        adjustDevicePixelScale genv appDpr (env.loadedFile.getD nullPixmap)) ∧
    (env.waitFinished = false →
      (generalGrimScreenshot genv appDpr okIn resIn env).ok = false ∧
      (generalGrimScreenshot genv appDpr okIn resIn env).advisoryEmitted = true ∧
      (generalGrimScreenshot genv appDpr okIn resIn env).res = resIn) := by
  constructor <;> intro hw <;> simp [generalGrimScreenshot, henabled, hw]

/-- C6 witness: a finished process reports success; an unfinished one
reports failure with the advisory. -/
theorem C6_grim_outcome_witness :
    (generalGrimScreenshot genv0 1 true nullPixmap
      ⟨true, true, 0, some ⟨800, 600, 1⟩⟩).ok = true ∧
    (generalGrimScreenshot genv0 1 true nullPixmap ⟨true, false, 0, none⟩).ok = false ∧
    (generalGrimScreenshot genv0 1 true nullPixmap
      ⟨true, false, 0, none⟩).advisoryEmitted = true := by
  have h1 := (C6_grim_outcome genv0 1 true nullPixmap
    ⟨true, true, 0, some ⟨800, 600, 1⟩⟩ rfl).1 rfl
  have h2 := (C6_grim_outcome genv0 1 true nullPixmap ⟨true, false, 0, none⟩ rfl).2 rfl
  exact ⟨h1.1, h2.1, h2.2.1⟩

/-- Folding the monitor loop over a raw array equals folding it over just
the valid monitors: invalid entries are skipped without touching the
accumulator. -/
theorem hyprAccum_general (arr : List (Option Monitor)) (acc : QRect × QRect × Bool) :
    arr.foldl hyprStep acc = ((validMonitors arr).map some).foldl hyprStep acc := by
  induction arr generalizing acc with
  | nil => rfl
  | cons head tail ih =>
      cases head with
      | none =>
          have hf : validMonitors (none :: tail) = validMonitors tail := by
            simp [validMonitors, List.filterMap_cons]
          rw [List.foldl_cons, hf]
          exact ih acc
      | some m =>
          rcases Decidable.em (monitorValid m) with hv | hv
          · have hf : validMonitors (some m :: tail) = m :: validMonitors tail := by
              simp [validMonitors, List.filterMap_cons, hv]
            rw [List.foldl_cons, hf, List.map_cons, List.foldl_cons]
            exact ih _
          · have hf : validMonitors (some m :: tail) = validMonitors tail := by
              simp [validMonitors, List.filterMap_cons, hv]
            have hstep : hyprStep acc (some m) = acc := by
              simp [hyprStep, hv]
            rw [List.foldl_cons, hf, hstep]
            exact ih acc

/-- A valid Hyprland monitor: 1920 times 1080 at the origin, scale 1. -/
def monitorA : Monitor := ⟨1920, 1080, 0, 0, 1⟩

/-- A partially-initialized Hyprland monitor entry with scale 0. -/
def monitorZ : Monitor := ⟨1920, 1080, 1920, 0, 0⟩

/-- Hyprland introspection environment yielding one valid and one
zero-scale entry. -/
def hyprEnvMix : HyprctlEnv := ⟨true, true, some [some monitorA, some monitorZ]⟩

/-- Hyprland introspection environment yielding only the valid entry. -/
def hyprEnvSingle : HyprctlEnv := ⟨true, true, some [some monitorA]⟩

/-- C7: invalid monitor entries (non-positive width, height or scale) are
excluded from both unions without corrupting them — folding equals folding
over only the valid entries, and the one-valid-plus-one-zero-scale mix
yields the single-valid-entry result; and whenever the session is not
Wayland+Hyprland, the subprocess does not finish, the output does not
parse, or no valid entry exists, the function reports `false` and the
geometry queries fall back to the generic per-output path. -/
theorem C7_hyprland_filter_and_fallback :
    (∀ arr : List (Option Monitor),
      hyprAccum arr = hyprAccum ((validMonitors arr).map some)) ∧
    (∀ p l : QRect, hyprlandDesktopGeometries hyprEnvMix p l =
      hyprlandDesktopGeometries hyprEnvSingle p l) ∧
    (∀ env : HyprctlEnv, ∀ p l : QRect, env.isWaylandHyprland = false →
      (hyprlandDesktopGeometries env p l).1 = false) ∧
    (∀ env : HyprctlEnv, ∀ p l : QRect, env.processFinished = false →
      (hyprlandDesktopGeometries env p l).1 = false) ∧
    (∀ env : HyprctlEnv, ∀ p l : QRect, env.parsedMonitors = none →
      (hyprlandDesktopGeometries env p l).1 = false) ∧
    (∀ env : HyprctlEnv, ∀ p l : QRect, ∀ arr, env.parsedMonitors = some arr →
      validMonitors arr = [] → (hyprlandDesktopGeometries env p l).1 = false) ∧
    (∀ genv : GeometryEnv,
      (hyprlandDesktopGeometries genv.hypr ⟨0, 0, 0, 0⟩ ⟨0, 0, 0, 0⟩).1 = false →
        desktopGeometry genv = genericDesktopGeometry genv.screens ∧
        logicalDesktopGeometry genv = genericLogicalDesktopGeometry genv.screens) := by
  refine ⟨fun arr => hyprAccum_general arr _, ?_, ?_, ?_, ?_, ?_, ?_⟩
  · intro p l
    have hZ : ¬ monitorValid monitorZ := by norm_num [monitorValid, monitorZ]
    have hacc : hyprAccum [some monitorA, some monitorZ] = hyprAccum [some monitorA] := by
      simp [hyprAccum, hyprStep, hZ]
    simp only [hyprlandDesktopGeometries, hyprEnvMix, hyprEnvSingle, hacc]
  · intro env p l h
    rw [hyprlandDesktopGeometries, if_pos h]
  · intro env p l h
    rw [hyprlandDesktopGeometries]
    by_cases h1 : env.isWaylandHyprland = false
    · rw [if_pos h1]
    · rw [if_neg h1, if_pos h]
  · intro env p l h
    rw [hyprlandDesktopGeometries]
    by_cases h1 : env.isWaylandHyprland = false
    · rw [if_pos h1]
    · rw [if_neg h1]
      by_cases h2 : env.processFinished = false
      · rw [if_pos h2]
      · rw [if_neg h2, h]
  · intro env p l arr harr hempty
    rw [hyprlandDesktopGeometries]
    by_cases h1 : env.isWaylandHyprland = false
    · rw [if_pos h1]
    · rw [if_neg h1]
      by_cases h2 : env.processFinished = false
      · rw [if_pos h2]
      · rw [if_neg h2, harr]
        have hacc : (hyprAccum arr).2.2 = false := by
          rw [hyprAccum, hyprAccum_general arr, hempty]
          rfl
        simp only [hacc, Bool.false_eq_true, if_false]
  · intro genv h
    constructor
    · rw [desktopGeometry]
      simp only [h, Bool.false_eq_true, if_false]
    · rw [logicalDesktopGeometry]
      simp only [h, Bool.false_eq_true, if_false]

/-- C7 witness: concrete instantiations of the filtering conjuncts and of
the fallback conjuncts. -/
theorem C7_hyprland_filter_and_fallback_witness :
    hyprlandDesktopGeometries hyprEnvMix ⟨0, 0, 0, 0⟩ ⟨0, 0, 0, 0⟩ =
      hyprlandDesktopGeometries hyprEnvSingle ⟨0, 0, 0, 0⟩ ⟨0, 0, 0, 0⟩ ∧
    (hyprlandDesktopGeometries hyprOff ⟨0, 0, 0, 0⟩ ⟨0, 0, 0, 0⟩).1 = false ∧
    desktopGeometry genv0 = genericDesktopGeometry genv0.screens := by
  refine ⟨C7_hyprland_filter_and_fallback.2.1 _ _, ?_, ?_⟩
  · exact C7_hyprland_filter_and_fallback.2.2.1 hyprOff _ _ rfl
  · exact (C7_hyprland_filter_and_fallback.2.2.2.2.2.2 genv0 rfl).1

/-- C10: whenever `hyprlandDesktopGeometries` returns `false`, the
by-reference `physical` and `logical` arguments keep the values passed by the caller. -/
theorem C10_out_params_unchanged (env : HyprctlEnv) (p l : QRect)
    (h : (hyprlandDesktopGeometries env p l).1 = false) :
    (hyprlandDesktopGeometries env p l).2.1 = p ∧
    (hyprlandDesktopGeometries env p l).2.2 = l := by
  by_cases h1 : env.isWaylandHyprland = false
  · rw [hyprlandDesktopGeometries, if_pos h1]
    exact ⟨rfl, rfl⟩
  · by_cases h2 : env.processFinished = false
    · rw [hyprlandDesktopGeometries, if_neg h1, if_pos h2]
      exact ⟨rfl, rfl⟩
    · rcases henv : env.parsedMonitors with _ | arr
      · rw [hyprlandDesktopGeometries, if_neg h1, if_neg h2, henv]
        exact ⟨rfl, rfl⟩
      · by_cases hacc : (hyprAccum arr).2.2 = true
        · exfalso
          rw [hyprlandDesktopGeometries, if_neg h1, if_neg h2, henv] at h
          simp only [hacc, if_true] at h
          cases h
        · rw [hyprlandDesktopGeometries, if_neg h1, if_neg h2, henv]
          simp only [Bool.not_eq_true] at hacc
          simp only [hacc, Bool.false_eq_true, if_false]
          refine ⟨?_, ?_⟩ <;> first | rfl | trivial

/-- C10 witness: a failing introspection leaves concrete caller values
untouched. -/
theorem C10_out_params_unchanged_witness :
    (hyprlandDesktopGeometries ⟨false, false, none⟩ ⟨1, 2, 3, 4⟩ ⟨5, 6, 7, 8⟩).2.1
      = ⟨1, 2, 3, 4⟩ ∧
    (hyprlandDesktopGeometries ⟨false, false, none⟩ ⟨1, 2, 3, 4⟩ ⟨5, 6, 7, 8⟩).2.2
      = ⟨5, 6, 7, 8⟩ :=
  C10_out_params_unchanged ⟨false, false, none⟩ ⟨1, 2, 3, 4⟩ ⟨5, 6, 7, 8⟩ rfl

/-- Output A of the worked example: (0,0) 1920 times 1080, scale 1. -/
def screenA : Screen := ⟨⟨0, 0, 1920, 1080⟩, 1⟩

/-- Output B of the worked example: (1920,0) 2560 times 1440, scale 1.25. -/
def screenB : Screen := ⟨⟨1920, 0, 2560, 1440⟩, 5/4⟩

/-- The two-output environment of the worked example, generic path. -/
def envAB : GeometryEnv := ⟨hyprOff, [screenA, screenB]⟩

theorem desktopGeometry_envAB : desktopGeometry envAB = ⟨0, 0, 4480, 1440⟩ := by decide

theorem logicalDesktopGeometry_envAB :
    logicalDesktopGeometry envAB = ⟨0, 0, 3584, 1152⟩ := by
  norm_num [logicalDesktopGeometry, hyprlandDesktopGeometries, genericLogicalDesktopGeometry,
    envAB, hyprOff, screenA, screenB, List.foldl, screenLogicalRectF, QRectF.united,
    QRectF.isNull, QRectF.toAlignedRect]

/-- C9 counterexample: on outputs A and B the logical union is not the
claimed (0,0,3968,1152) — the code divides the origin of B by the scale of B as well
(1920 / 1.25 = 1536), so the right edge of the union is 1536 + 2048 = 3584,
not 1920 + 2048. -/
theorem C9_logical_union_cex :
    logicalDesktopGeometry envAB ≠ ⟨0, 0, 3968, 1152⟩ := by
  rw [logicalDesktopGeometry_envAB]
  decide

/-- C9 amended: the generic path unions the reported rectangles for the
physical geometry and the per-scale-divided rectangles (origin and size)
for the logical geometry, aligning outward; on outputs A and B this gives
physical (0,0,4480,1440) and logical (0,0,3584,1152). -/
theorem C9_union_values :
    desktopGeometry envAB = ⟨0, 0, 4480, 1440⟩ ∧
    logicalDesktopGeometry envAB = ⟨0, 0, 3584, 1152⟩ :=
  ⟨desktopGeometry_envAB, logicalDesktopGeometry_envAB⟩

/-- The single screen of the C8 counterexample: at x = 1, 1 pixel wide,
scale 1.25 — its logical span [0.8, 1.6] aligns outward to width 2. -/
def screenC8 : Screen := ⟨⟨1, 0, 1, 1⟩, 5/4⟩

/-- The geometry environment of the C8 counterexample. -/
def envC8 : GeometryEnv := ⟨hyprOff, [screenC8]⟩

theorem desktopGeometry_envC8 : desktopGeometry envC8 = ⟨1, 0, 1, 1⟩ := by decide

theorem logicalDesktopGeometry_envC8 : logicalDesktopGeometry envC8 = ⟨0, 0, 2, 1⟩ := by
  have hc1 : ⌈(8 : ℚ) / 5⌉ = 2 := by
    rw [Int.ceil_eq_iff]
    norm_num
  have hc2 : ⌈(4 : ℚ) / 5⌉ = 1 := by
    rw [Int.ceil_eq_iff]
    norm_num
  norm_num [logicalDesktopGeometry, hyprlandDesktopGeometries, genericLogicalDesktopGeometry,
    envC8, hyprOff, screenC8, List.foldl, screenLogicalRectF, QRectF.united,
    QRectF.isNull, QRectF.toAlignedRect, hc1, hc2]

/-- C8 counterexample: a screen set whose only scale is 1.25 ≥ 1, yet the
logical desktop size exceeds the physical desktop size in width (2 > 1),
because `toAlignedRect` rounds the scaled union outward. -/
theorem C8_scale_ge_one_cex :
    1 ≤ screenC8.dpr ∧
    ¬((logicalDesktopGeometry envC8).w ≤ (desktopGeometry envC8).w ∧
      (logicalDesktopGeometry envC8).h ≤ (desktopGeometry envC8).h) := by
  constructor
  · norm_num [screenC8]
  · rw [logicalDesktopGeometry_envC8, desktopGeometry_envC8]
    decide

/-- C8 amended: on the generic path (non-Hyprland), with every screen of
positive size, origins componentwise nonnegative, every scale at least 1,
and an output starting at 0 on each axis, the logical desktop size never
exceeds the physical desktop size componentwise. -/
theorem C8_logical_le_physical (genv : GeometryEnv)
    (hhypr : genv.hypr.isWaylandHyprland = false)
    (hpos : ∀ s ∈ genv.screens, 0 < s.geometry.w ∧ 0 < s.geometry.h)
    (horg : ∀ s ∈ genv.screens, 0 ≤ s.geometry.x ∧ 0 ≤ s.geometry.y)
    (hscale : ∀ s ∈ genv.screens, 1 ≤ s.dpr)
    (hx0 : ∃ s ∈ genv.screens, s.geometry.x = 0)
    (hy0 : ∃ s ∈ genv.screens, s.geometry.y = 0) :
    (logicalDesktopGeometry genv).w ≤ (desktopGeometry genv).w ∧
    (logicalDesktopGeometry genv).h ≤ (desktopGeometry genv).h := by
  have hfalse : (hyprlandDesktopGeometries genv.hypr ⟨0, 0, 0, 0⟩ ⟨0, 0, 0, 0⟩).1 = false := by
    rw [hyprlandDesktopGeometries, if_pos hhypr]
  have hP : desktopGeometry genv = genericDesktopGeometry genv.screens := by
    rw [desktopGeometry]
    simp only [hfalse, Bool.false_eq_true, if_false]
  have hL : logicalDesktopGeometry genv = genericLogicalDesktopGeometry genv.screens := by
    rw [logicalDesktopGeometry]
    simp only [hfalse, Bool.false_eq_true, if_false]
  rw [hP, hL]
  rcases hscr : genv.screens with _ | ⟨a, l⟩
  · rw [hscr] at hx0
    obtain ⟨s, hs, _⟩ := hx0
    cases hs
  · rw [hscr] at hpos horg hscale hx0 hy0
    exact generic_logical_le_physical a l hpos horg hscale hx0 hy0

/-- C8 witness: the two-output worked example satisfies the amended
hypotheses, and indeed (3584,1152) ≤ (4480,1440). -/
theorem C8_logical_le_physical_witness :
    (logicalDesktopGeometry envAB).w ≤ (desktopGeometry envAB).w ∧
    (logicalDesktopGeometry envAB).h ≤ (desktopGeometry envAB).h := by
  refine C8_logical_le_physical envAB rfl ?_ ?_ ?_ ?_ ?_
  · intro s hs
    fin_cases hs <;> exact ⟨by decide, by decide⟩
  · intro s hs
    fin_cases hs <;> exact ⟨by decide, by decide⟩
  · intro s hs
    fin_cases hs <;> norm_num [screenA, screenB]
  · exact ⟨screenA, by simp [envAB], rfl⟩
  · exact ⟨screenA, by simp [envAB], rfl⟩
